import Mathlib

/-!
Verification of the readwrite PE-file primitives (pefile.go).

Bytes are modelled as natural numbers below 256 inside `List Nat`;
Go `uint32` arithmetic is modelled with explicit `% 2^32`.
Outcomes distinguish an ordinary returned error (`err`), a process
termination through log.Fatal (`fatal`) and a Go runtime panic
(`panicked`, e.g. a slice-bounds violation).
-/

namespace readwrite

/-- The error values of pefile.go, plus the io errors binary.Read can
surface when a reader is exhausted. -/
inductive GoErr where
  | noBytes
  | invalidOffset
  | emptyHeader
  | sectionNil
  | eof
  | unexpectedEOF
deriving DecidableEq

/-- Result channel of a Go function in this package: a normal value, a
returned error value, a log.Fatal process exit, or a runtime panic. -/
inductive Outcome (α : Type) where
  | ok (a : α)
  | err (e : GoErr)
  | fatal
  | panicked
deriving DecidableEq

end readwrite

namespace readwrite

/-- MatchBytes from pefile.go: iterate over the indices of dst, compare
src[i] with dst[i]; a mismatch returns false.  Indexing src past its end
is a runtime panic, modelled by `none`. -/
def MatchBytes : List Nat → List Nat → Option Bool
  | _, [] => some true
  | [], _ :: _ => none
  | s :: ss, d :: ds => if s = d then MatchBytes ss ds else some false

/-- The loop of FindBytes: try indices i, i+1, ... for `fuel` iterations,
returning the first index whose window of length dst.length matches dst. -/
def findLoop (src dst : List Nat) : Nat → Nat → Option Nat
  | _, 0 => none
  | i, fuel + 1 =>
    if MatchBytes ((src.drop i).take dst.length) dst = some true then some i
    else findLoop src dst (i + 1) fuel

/-- FindBytes from pefile.go.  The Go code ranges over
src[:len(src)-len(dst)+1]; when that bound is negative the slice
expression panics, otherwise the loop visits exactly
len(src)-len(dst)+1 indices and falls through to errNoBytes. -/
def FindBytes (src dst : List Nat) : Outcome Nat :=
  if src.length + 1 < dst.length then Outcome.panicked
  else
    match findLoop src dst 0 (src.length + 1 - dst.length) with
    | some i => Outcome.ok i
    | none => Outcome.err GoErr.noBytes

/-- A full occurrence of dst inside src at index i. -/
def MatchAt (src dst : List Nat) (i : Nat) : Prop :=
  i + dst.length ≤ src.length ∧ (src.drop i).take dst.length = dst

instance instDecidableMatchAt (src dst : List Nat) (i : Nat) :
    Decidable (MatchAt src dst i) := by
  unfold MatchAt
  exact inferInstance

/-- Go copy(dst, src): overwrites the first min(len dst, len src) cells
of dst with the corresponding cells of src. -/
def goCopy (dst src : List Nat) : List Nat :=
  src.take dst.length ++ dst.drop src.length

/-- WriteBytes from pefile.go: bounds check, then copy(bytes[offset:],
replace).  The pair returned is (error value, buffer after the call). -/
def WriteBytes (bytes : List Nat) (offset : Int) (replace : List Nat) :
    Option GoErr × List Nat :=
  if offset < 0 ∨ (bytes.length : Int) < offset + (replace.length : Int) then
    (some GoErr.invalidOffset, bytes)
  else
    (none, bytes.take offset.toNat ++ goCopy (bytes.drop offset.toNat) replace)

/-- PadBytes from pefile.go: append size - len(bytes) zero bytes when the
input is shorter than size, otherwise return the input unchanged. -/
def PadBytes (bytes : List Nat) (size : Int) : List Nat :=
  if (bytes.length : Int) < size then
    bytes ++ List.replicate (size - (bytes.length : Int)).toNat 0
  else bytes

/-- PE signature bytes 0x50 0x45 0x00 0x00. -/
def COFFStartBytes : List Nat := [0x50, 0x45, 0x00, 0x00]

def COFFStartBytesLen : Nat := 4

def COFFHeaderSize : Nat := 20

/-- Byte size of OptionalHeader64X110, the 64-bit optional header without
its 2-byte magic number and 128-byte data directory: the sum of the field
widths of the struct, in declaration order (two uint8, five uint32, one
uint64, two uint32, six uint16, four uint32, two uint16, four uint64, two
uint32), exactly what binary.Size computes for it. -/
def OH64ByteSize : Nat :=
  1 + 1 + 4 + 4 + 4 + 4 + 4 + 8 + 4 + 4 + 2 + 2 + 2 + 2 + 2 + 2 +
    4 + 4 + 4 + 4 + 2 + 2 + 8 + 8 + 8 + 8 + 4 + 4

def DataDirSize : Nat := 128

def DataDirEntrySize : Nat := 8

def SH32EntrySize : Nat := 64

/-- ReadCOFFHeaderOffset from pefile.go: search for the PE signature. -/
def ReadCOFFHeaderOffset (bytes : List Nat) : Outcome Nat :=
  FindBytes bytes COFFStartBytes

/-- ReadDDBytes from pefile.go: slice out the 128-byte data-directory
region following the signature, COFF header and optional-header tail.
A slice bound past the end of the buffer is a runtime panic. -/
def ReadDDBytes (bytes : List Nat) : Outcome (List Nat) :=
  match ReadCOFFHeaderOffset bytes with
  | Outcome.ok offset =>
    if offset + COFFStartBytesLen + COFFHeaderSize + OH64ByteSize + DataDirSize ≤ bytes.length then
      Outcome.ok
        ((bytes.drop (offset + COFFStartBytesLen + COFFHeaderSize + OH64ByteSize)).take DataDirSize)
    else Outcome.panicked
  | Outcome.err e => Outcome.err e
  | Outcome.fatal => Outcome.fatal
  | Outcome.panicked => Outcome.panicked

/-- binary.LittleEndian.PutUint32: the four bytes of v, least significant
first, each truncated to a byte. -/
def putUint32LE (v : Nat) : List Nat :=
  [v % 256, v / 256 % 256, v / 65536 % 256, v / 16777216 % 256]

/-- ReadDDEntryOffset from pefile.go: build the 8-byte little-endian
needle, search the data-directory region for it, and on success return
coff + 4 + 20 + OH64ByteSize + matchIndex.  On a failed search the Go
code calls log.Fatal, terminating the process. -/
def ReadDDEntryOffset (bytes : List Nat) (entryVirtualAddress entrySize : Nat) : Outcome Nat :=
  match ReadDDBytes bytes with
  | Outcome.ok dataDir =>
    match FindBytes dataDir (putUint32LE entryVirtualAddress ++ putUint32LE entrySize) with
    | Outcome.ok rva =>
      match ReadCOFFHeaderOffset bytes with
      | Outcome.ok offset =>
        Outcome.ok (offset + COFFStartBytesLen + COFFHeaderSize + OH64ByteSize + rva)
      | Outcome.err e => Outcome.err e
      | Outcome.fatal => Outcome.fatal
      | Outcome.panicked => Outcome.panicked
    | Outcome.err _ => Outcome.fatal
    | Outcome.fatal => Outcome.fatal
    | Outcome.panicked => Outcome.panicked
  | Outcome.err e => Outcome.err e
  | Outcome.fatal => Outcome.fatal
  | Outcome.panicked => Outcome.panicked

/-- One parsed section, the three fields of a pe.Section that
ReadSectionBytes uses; all three are Go uint32 values. -/
structure PESection where
  virtualAddress : Nat
  size : Nat
  offset : Nat
deriving DecidableEq

/-- ReadSHSize from pefile.go: number of sections times the 64-byte
entry stride; an overall size of zero is the empty-header error. -/
def ReadSHSize (sections : List PESection) : Outcome Nat :=
  if sections.length * SH32EntrySize = 0 then Outcome.err GoErr.emptyHeader
  else Outcome.ok (sections.length * SH32EntrySize)

def U32 : Nat := 4294967296

/-- The loop condition of ReadSectionBytes, with the uint32 addition of
virtualAddress and size wrapping modulo 2^32. -/
def sectionContains (s : PESection) (va : Nat) : Bool :=
  decide (s.virtualAddress ≤ va) && decide (va < (s.virtualAddress + s.size) % U32)

/-- ReadSectionBytes from pefile.go: first section whose range contains
the requested address wins; the file offset is computed in uint32
arithmetic and the final slice of the image panics when out of range. -/
def ReadSectionBytes (fileBytes : List Nat) (sections : List PESection)
    (sectionVirtualAddress sectionSize : Nat) : Outcome (List Nat) :=
  match sections.find? (fun s => sectionContains s sectionVirtualAddress) with
  | none => Outcome.err GoErr.sectionNil
  | some s =>
    let offset := (sectionVirtualAddress - s.virtualAddress + s.offset) % U32
    let hi := (offset + sectionSize) % U32
    if offset ≤ hi ∧ hi ≤ fileBytes.length then
      Outcome.ok ((fileBytes.drop offset).take (hi - offset))
    else Outcome.panicked

/-- A positioned io.Reader over an in-memory byte sequence, as produced
by bytes.NewReader: the underlying data and the current read position. -/
structure ByteReader where
  data : List Nat
  pos : Nat
deriving DecidableEq

/-- The read binary.Read performs for a fixed-width value: io.ReadFull
of `width` bytes.  When fewer bytes remain, ReadFull consumes all of
them and reports io.EOF (nothing was read) or io.ErrUnexpectedEOF
(a partial read). -/
def binReadBytes (r : ByteReader) (width : Nat) : Outcome (List Nat) × ByteReader :=
  if width ≤ r.data.length - r.pos then
    (Outcome.ok ((r.data.drop r.pos).take width), ⟨r.data, r.pos + width⟩)
  else if r.data.length - r.pos = 0 then (Outcome.err GoErr.eof, r)
  else (Outcome.err GoErr.unexpectedEOF, ⟨r.data, r.data.length⟩)

/-- The error binReadBytes reports when fewer than the requested bytes
remain. -/
def truncErr (r : ByteReader) : GoErr :=
  if r.data.length - r.pos = 0 then GoErr.eof else GoErr.unexpectedEOF

/-- Little-endian uint32 from the first four bytes of a list. -/
def u32le : List Nat → Nat
  | b0 :: b1 :: b2 :: b3 :: _ => b0 + 256 * b1 + 65536 * b2 + 16777216 * b3
  | _ => 0

/-- Little-endian uint64 from the first eight bytes of a list. -/
def u64le (bs : List Nat) : Nat :=
  u32le bs + 4294967296 * u32le (bs.drop 4)

/-- Import structure from pefile.go: five uint32 fields. -/
structure Import where
  characteristics : Nat
  timedatestamp : Nat
  forwarderChain : Nat
  name : Nat
  fthunk : Nat
deriving DecidableEq

/-- Thunk structure from pefile.go: two uint32 fields. -/
structure Thunk where
  function : Nat
  dataAddr : Nat
deriving DecidableEq

/-- DataDir structure from pefile.go: two uint32 fields. -/
structure DataDir where
  va : Nat
  size : Nat
deriving DecidableEq

/-- EncBlock structure from pefile.go: nine uint32 fields, one uint64
field, one final uint32 field, in declaration order. -/
structure EncBlock where
  va : Nat
  rawSize : Nat
  virtualSize : Nat
  unk : Nat
  crc : Nat
  unk2 : Nat
  crc2 : Nat
  pad : Nat
  fileOffset : Nat
  pad2 : Nat
  pad3 : Nat
deriving DecidableEq

/-- binary.Size of Import: five uint32 fields. -/
def importByteSize : Nat := 4 + 4 + 4 + 4 + 4

/-- binary.Size of Thunk: two uint32 fields. -/
def thunkByteSize : Nat := 4 + 4

/-- binary.Size of DataDir: two uint32 fields. -/
def dataDirByteSize : Nat := 4 + 4

/-- binary.Size of EncBlock: nine uint32, one uint64, one uint32. -/
def encBlockByteSize : Nat := 4 + 4 + 4 + 4 + 4 + 4 + 4 + 4 + 4 + 8 + 4

/-- ReadImport from pefile.go: binary.Read of the five little-endian
uint32 fields of an Import. -/
def ReadImport (r : ByteReader) : Outcome Import × ByteReader :=
  match binReadBytes r importByteSize with
  | (Outcome.ok bs, r2) =>
    (Outcome.ok ⟨u32le bs, u32le (bs.drop 4), u32le (bs.drop 8), u32le (bs.drop 12),
      u32le (bs.drop 16)⟩, r2)
  | (Outcome.err e, r2) => (Outcome.err e, r2)
  | (Outcome.fatal, r2) => (Outcome.fatal, r2)
  | (Outcome.panicked, r2) => (Outcome.panicked, r2)

/-- ReadThunk from pefile.go: binary.Read of the two little-endian
uint32 fields of a Thunk. -/
def ReadThunk (r : ByteReader) : Outcome Thunk × ByteReader :=
  match binReadBytes r thunkByteSize with
  | (Outcome.ok bs, r2) => (Outcome.ok ⟨u32le bs, u32le (bs.drop 4)⟩, r2)
  | (Outcome.err e, r2) => (Outcome.err e, r2)
  | (Outcome.fatal, r2) => (Outcome.fatal, r2)
  | (Outcome.panicked, r2) => (Outcome.panicked, r2)

/-- ReadDataDir from pefile.go: binary.Read of the two little-endian
uint32 fields of a DataDir. -/
def ReadDataDir (r : ByteReader) : Outcome DataDir × ByteReader :=
  match binReadBytes r dataDirByteSize with
  | (Outcome.ok bs, r2) => (Outcome.ok ⟨u32le bs, u32le (bs.drop 4)⟩, r2)
  | (Outcome.err e, r2) => (Outcome.err e, r2)
  | (Outcome.fatal, r2) => (Outcome.fatal, r2)
  | (Outcome.panicked, r2) => (Outcome.panicked, r2)

/-- ReadEncBlock from pefile.go: binary.Read of the EncBlock fields,
little-endian, at their fixed byte offsets. -/
def ReadEncBlock (r : ByteReader) : Outcome EncBlock × ByteReader :=
  match binReadBytes r encBlockByteSize with
  | (Outcome.ok bs, r2) =>
    (Outcome.ok ⟨u32le bs, u32le (bs.drop 4), u32le (bs.drop 8), u32le (bs.drop 12),
      u32le (bs.drop 16), u32le (bs.drop 20), u32le (bs.drop 24), u32le (bs.drop 28),
      u32le (bs.drop 32), u64le (bs.drop 36), u32le (bs.drop 44)⟩, r2)
  | (Outcome.err e, r2) => (Outcome.err e, r2)
  | (Outcome.fatal, r2) => (Outcome.fatal, r2)
  | (Outcome.panicked, r2) => (Outcome.panicked, r2)

/-- A synthetic PE64 image: the signature at offset 0, a zeroed COFF
header and optional-header tail, and a data directory that is zero
except for the entry (0x2000, 0x40) written at table byte index 40. -/
def sampleImage : List Nat :=
  COFFStartBytes ++ List.replicate 20 0 ++ List.replicate 110 0 ++
    (List.replicate 40 0 ++ [0x00, 0x20, 0x00, 0x00, 0x40, 0x00, 0x00, 0x00] ++
      List.replicate 80 0)

/-- A successful MatchBytes comparison on a window holding at least as
many bytes as the needle is exactly a prefix equality. -/
theorem matchBytes_some_true (dst : List Nat) :
    ∀ src : List Nat, dst.length ≤ src.length →
      (MatchBytes src dst = some true ↔ src.take dst.length = dst) := by
  induction dst with
  | nil =>
    intro src _
    simp [MatchBytes]
  | cons d ds ih =>
    intro src h
    cases src with
    | nil => simp at h
    | cons s ss =>
      have hlen : ds.length ≤ ss.length := by simpa using h
      simp only [MatchBytes, List.length_cons, List.take_succ_cons, List.cons.injEq]
      by_cases hsd : s = d
      · rw [if_pos hsd, ih ss hlen]
        simp [hsd]
      · rw [if_neg hsd]
        simp [hsd]

/-- MatchBytes can only report a full match when the window holds at
least as many bytes as the needle. -/
theorem matchBytes_length_le (dst : List Nat) :
    ∀ src : List Nat, MatchBytes src dst = some true → dst.length ≤ src.length := by
  induction dst with
  | nil =>
    intro src _
    simp
  | cons d ds ih =>
    intro src hm
    cases src with
    | nil => simp [MatchBytes] at hm
    | cons s ss =>
      simp only [MatchBytes] at hm
      by_cases hsd : s = d
      · rw [if_pos hsd] at hm
        simpa using Nat.succ_le_succ (ih ss hm)
      · rw [if_neg hsd] at hm
        simp at hm

/-- The loop condition of FindBytes holds at index i exactly when the
needle occurs in full at index i. -/
theorem matchCond_iff_matchAt (src dst : List Nat) (hne : dst ≠ []) (i : Nat) :
    MatchBytes ((src.drop i).take dst.length) dst = some true ↔ MatchAt src dst i := by
  constructor
  · intro hm
    have hlen := matchBytes_length_le dst _ hm
    rw [List.length_take, List.length_drop] at hlen
    have hd : 0 < dst.length := List.length_pos.mpr hne
    have hb : i + dst.length ≤ src.length := by omega
    refine ⟨hb, ?_⟩
    have := (matchBytes_some_true dst ((src.drop i).take dst.length) (by
      rw [List.length_take, List.length_drop]; omega)).mp hm
    rw [List.take_take] at this
    simpa using this
  · rintro ⟨hb, ht⟩
    have hlen2 : dst.length ≤ ((src.drop i).take dst.length).length := by
      rw [List.length_take, List.length_drop]; omega
    refine (matchBytes_some_true dst _ hlen2).mpr ?_
    rw [List.take_take]
    simpa using ht

/-- The FindBytes loop returns some j exactly when j is the first index
in its window [i, i+fuel) satisfying the loop condition. -/
theorem findLoop_some_iff (src dst : List Nat) :
    ∀ (fuel i j : Nat),
      findLoop src dst i fuel = some j ↔
        (i ≤ j ∧ j < i + fuel ∧
          MatchBytes ((src.drop j).take dst.length) dst = some true ∧
          ∀ m, i ≤ m → m < j →
            MatchBytes ((src.drop m).take dst.length) dst ≠ some true) := by
  intro fuel
  induction fuel with
  | zero =>
    intro i j
    simp only [findLoop]
    constructor
    · intro h; simp at h
    · rintro ⟨h1, h2, _, _⟩; omega
  | succ n ih =>
    intro i j
    rw [findLoop]
    by_cases hc : MatchBytes ((src.drop i).take dst.length) dst = some true
    · rw [if_pos hc]
      constructor
      · intro h
        have hij : i = j := by simpa using h
        subst hij
        exact ⟨Nat.le_refl i, by omega, hc, fun m hm1 hm2 _ => by omega⟩
      · rintro ⟨h1, _h2, _h3, h4⟩
        rcases Nat.lt_or_ge i j with hij | hij
        · exact absurd hc (h4 i (Nat.le_refl i) hij)
        · have hij2 : i = j := by omega
          rw [hij2]
    · rw [if_neg hc, ih (i + 1) j]
      constructor
      · rintro ⟨h1, h2, h3, h4⟩
        refine ⟨by omega, by omega, h3, ?_⟩
        intro m hm1 hm2
        rcases Nat.eq_or_lt_of_le hm1 with heq | hlt
        · rw [← heq]; exact hc
        · exact h4 m hlt hm2
      · rintro ⟨h1, h2, h3, h4⟩
        have hij : i ≠ j := by
          intro heq
          rw [heq] at hc
          exact hc h3
        exact ⟨by omega, by omega, h3, fun m hm1 hm2 => h4 m (by omega) hm2⟩

/-- The FindBytes loop returns none exactly when no index of its window
satisfies the loop condition. -/
theorem findLoop_none_iff (src dst : List Nat) :
    ∀ (fuel i : Nat),
      findLoop src dst i fuel = none ↔
        ∀ m, i ≤ m → m < i + fuel →
          MatchBytes ((src.drop m).take dst.length) dst ≠ some true := by
  intro fuel
  induction fuel with
  | zero =>
    intro i
    simp only [findLoop]
    constructor
    · intro _ m hm1 hm2
      exact absurd hm2 (by omega)
    · intro _
      trivial
  | succ n ih =>
    intro i
    rw [findLoop]
    by_cases hc : MatchBytes ((src.drop i).take dst.length) dst = some true
    · rw [if_pos hc]
      constructor
      · intro h; simp at h
      · intro h
        exact absurd hc (h i (Nat.le_refl i) (by omega))
    · rw [if_neg hc, ih (i + 1)]
      constructor
      · intro h m hm1 hm2
        rcases Nat.eq_or_lt_of_le hm1 with heq | hlt
        · rw [← heq]; exact hc
        · exact h m hlt (by omega)
      · intro h m hm1 hm2
        exact h m (by omega) (by omega)

/-- FindBytes returns index i exactly when the needle occurs there and
nowhere earlier, provided the needle is non-empty and short enough for
the Go slice bound to be legal. -/
theorem findBytes_found_iff (src dst : List Nat) (hne : dst ≠ [])
    (hlen : dst.length ≤ src.length + 1) (i : Nat) :
    FindBytes src dst = Outcome.ok i ↔
      (MatchAt src dst i ∧ ∀ j, j < i → ¬ MatchAt src dst j) := by
  unfold FindBytes
  rw [if_neg (by omega)]
  cases hfl : findLoop src dst 0 (src.length + 1 - dst.length) with
  | some m =>
    rw [findLoop_some_iff] at hfl
    obtain ⟨_, hm2, hm3, hm4⟩ := hfl
    have hma : MatchAt src dst m := (matchCond_iff_matchAt src dst hne m).mp hm3
    constructor
    · intro h
      have hmi : m = i := by simpa using h
      subst hmi
      refine ⟨hma, fun j hj hcj => ?_⟩
      exact hm4 j (Nat.zero_le j) hj ((matchCond_iff_matchAt src dst hne j).mpr hcj)
    · rintro ⟨h1, h2⟩
      have him : i = m := by
        rcases Nat.lt_trichotomy i m with h | h | h
        · exact absurd ((matchCond_iff_matchAt src dst hne i).mpr h1)
            (hm4 i (Nat.zero_le i) h)
        · exact h
        · exact absurd hma (h2 m h)
      rw [him]
  | none =>
    rw [findLoop_none_iff] at hfl
    constructor
    · intro h; simp at h
    · rintro ⟨h1, _⟩
      have hb := h1.1
      have hd : 0 < dst.length := List.length_pos.mpr hne
      exact absurd ((matchCond_iff_matchAt src dst hne i).mpr h1)
        (hfl i (Nat.zero_le i) (by omega))

/-- FindBytes reports errNoBytes exactly when the needle occurs nowhere,
provided the needle is non-empty and short enough for the Go slice bound
to be legal. -/
theorem findBytes_noMatch_iff (src dst : List Nat) (hne : dst ≠ [])
    (hlen : dst.length ≤ src.length + 1) :
    FindBytes src dst = Outcome.err GoErr.noBytes ↔ ∀ i, ¬ MatchAt src dst i := by
  unfold FindBytes
  rw [if_neg (by omega)]
  cases hfl : findLoop src dst 0 (src.length + 1 - dst.length) with
  | some m =>
    rw [findLoop_some_iff] at hfl
    obtain ⟨_, _, hm3, _⟩ := hfl
    constructor
    · intro h; simp at h
    · intro h
      exact absurd ((matchCond_iff_matchAt src dst hne m).mp hm3) (h m)
  | none =>
    rw [findLoop_none_iff] at hfl
    constructor
    · intro _ i hma
      have hb := hma.1
      have hd : 0 < dst.length := List.length_pos.mpr hne
      exact hfl i (Nat.zero_le i) (by omega)
        ((matchCond_iff_matchAt src dst hne i).mpr hma)
    · intro _
      rfl

/-- When the needle is more than one byte longer than the haystack, the
Go slice expression in FindBytes has a negative bound and panics. -/
theorem findBytes_panicked (src dst : List Nat) (h : src.length + 1 < dst.length) :
    FindBytes src dst = Outcome.panicked := by
  unfold FindBytes
  rw [if_pos h]

/-- C1 (amended): for a non-empty needle at most one byte longer than the
haystack, FindBytes returns the lowest index of a full occurrence and
errNoBytes when there is none; when the needle is more than one byte
longer than the haystack, FindBytes panics on a negative slice bound
instead of returning errNoBytes. -/
theorem findBytes_claim (src dst : List Nat) (hne : dst ≠ []) :
    (dst.length ≤ src.length + 1 →
      ((∀ i, FindBytes src dst = Outcome.ok i ↔
          (MatchAt src dst i ∧ ∀ j, j < i → ¬ MatchAt src dst j)) ∧
        (FindBytes src dst = Outcome.err GoErr.noBytes ↔ ∀ i, ¬ MatchAt src dst i))) ∧
      (src.length + 1 < dst.length → FindBytes src dst = Outcome.panicked) :=
  ⟨fun h => ⟨fun i => findBytes_found_iff src dst hne h i,
      findBytes_noMatch_iff src dst hne h⟩,
    fun h => findBytes_panicked src dst h⟩

/-- C1 counterexample: with haystack [1] and needle [2, 3, 4] no
occurrence exists and the needle is longer than the haystack, so the
claim demands errNoBytes, but FindBytes panics on the negative slice
bound len(src) - len(dst) + 1 = -1. -/
theorem findBytes_claim_cex :
    FindBytes [1] [2, 3, 4] = Outcome.panicked ∧
      FindBytes [1] [2, 3, 4] ≠ Outcome.err GoErr.noBytes := by
  decide

/-- Witness for C1: concrete instantiations of both halves. -/
theorem findBytes_claim_witness :
    FindBytes [9, 1, 2, 1, 2] [1, 2] = Outcome.ok 1 ∧ ¬ MatchAt [3, 4] [9] 0 :=
  ⟨(((findBytes_claim [9, 1, 2, 1, 2] [1, 2] (by decide)).1 (by decide)).1 1).mpr
      ⟨by decide, by decide⟩,
    ((findBytes_claim [3, 4] [9] (by decide)).1 (by decide)).2.mp (by decide) 0⟩

/-- Go copy overwrites dst in full when the source is no longer than the
destination. -/
theorem goCopy_full (dst src : List Nat) (h : src.length ≤ dst.length) :
    goCopy dst src = src ++ dst.drop src.length := by
  unfold goCopy
  rw [List.take_of_length_le h]

/-- C5: WriteBytes is atomic: out of range exactly when offset < 0 or
offset + len(replace) > len(buffer), in which case the buffer is
untouched; otherwise it succeeds and the buffer becomes the original
with exactly bytes [offset, offset + len(replace)) replaced. -/
theorem writeBytes_atomic (bytes : List Nat) (offset : Int) (replace : List Nat) :
    ((offset < 0 ∨ (bytes.length : Int) < offset + (replace.length : Int)) →
        WriteBytes bytes offset replace = (some GoErr.invalidOffset, bytes)) ∧
      (¬ (offset < 0 ∨ (bytes.length : Int) < offset + (replace.length : Int)) →
        WriteBytes bytes offset replace =
          (none, bytes.take offset.toNat ++ replace ++
            bytes.drop (offset.toNat + replace.length))) := by
  constructor
  · intro h
    unfold WriteBytes
    rw [if_pos h]
  · intro h
    unfold WriteBytes
    rw [if_neg h]
    have h0 : 0 ≤ offset := by omega
    have h1 : offset.toNat + replace.length ≤ bytes.length := by omega
    have h2 : replace.length ≤ (bytes.drop offset.toNat).length := by
      rw [List.length_drop]; omega
    rw [goCopy_full _ _ h2, List.drop_drop, List.append_assoc]

/-- Witness for C5: a successful in-range write and a rejected
out-of-range write. -/
theorem writeBytes_atomic_witness :
    WriteBytes [1, 2, 3, 4, 5] 1 [9, 8] = (none, [1, 9, 8, 4, 5]) ∧
      WriteBytes [1, 2, 3] 2 [9, 8] = (some GoErr.invalidOffset, [1, 2, 3]) :=
  ⟨(writeBytes_atomic [1, 2, 3, 4, 5] 1 [9, 8]).2 (by decide),
    (writeBytes_atomic [1, 2, 3] 2 [9, 8]).1 (by decide)⟩

/-- C10: with an empty replacement, WriteBytes succeeds for every offset
with 0 <= offset <= len(buffer), including offset = len(buffer), and
leaves the buffer unchanged; it fails exactly when offset < 0 or
offset > len(buffer). -/
theorem writeBytes_empty_spec (bytes : List Nat) (offset : Int) :
    ((0 ≤ offset ∧ offset ≤ (bytes.length : Int)) →
        WriteBytes bytes offset [] = (none, bytes)) ∧
      ((offset < 0 ∨ (bytes.length : Int) < offset) →
        WriteBytes bytes offset [] = (some GoErr.invalidOffset, bytes)) := by
  constructor
  · intro h
    have hne : ¬ (offset < 0 ∨ (bytes.length : Int) < offset + (([] : List Nat).length : Int)) := by
      simp only [List.length_nil]
      omega
    have := (writeBytes_atomic bytes offset []).2 hne
    rw [this]
    simp
  · intro h
    refine (writeBytes_atomic bytes offset []).1 ?_
    simp only [List.length_nil]
    omega

/-- Witness for C10: an empty write at offset = len succeeds unchanged;
an empty write one past the end fails. -/
theorem writeBytes_empty_witness :
    WriteBytes [1, 2] 2 [] = (none, [1, 2]) ∧
      WriteBytes [1, 2] 3 [] = (some GoErr.invalidOffset, [1, 2]) :=
  ⟨(writeBytes_empty_spec [1, 2] 2).1 (by decide),
    (writeBytes_empty_spec [1, 2] 3).2 (by decide)⟩

/-- C6: PadBytes returns the input unchanged when the target size is at
most the input length, and otherwise extends it to the target size with
trailing zero bytes, preserving the original prefix. -/
theorem padBytes_spec (bytes : List Nat) (n : Int) :
    (n ≤ (bytes.length : Int) → PadBytes bytes n = bytes) ∧
      ((bytes.length : Int) < n →
        (PadBytes bytes n).length = n.toNat ∧
          (PadBytes bytes n).take bytes.length = bytes ∧
          (PadBytes bytes n).drop bytes.length =
            List.replicate (n.toNat - bytes.length) 0) := by
  constructor
  · intro h
    unfold PadBytes
    rw [if_neg (by omega)]
  · intro h
    unfold PadBytes
    rw [if_pos h]
    have hk : (n - (bytes.length : Int)).toNat = n.toNat - bytes.length := by omega
    refine ⟨?_, ?_, ?_⟩
    · rw [List.length_append, List.length_replicate]
      omega
    · rw [List.take_left]
    · rw [List.drop_left, hk]

/-- Witness for C6: a shorter target leaves the input alone; a longer
target pads with zeros to the requested length. -/
theorem padBytes_spec_witness :
    PadBytes [5, 6] 1 = [5, 6] ∧ (PadBytes [5, 6] 4).length = 4 ∧
      (PadBytes [5, 6] 4).drop 2 = [0, 0] :=
  ⟨(padBytes_spec [5, 6] 1).1 (by decide),
    ((padBytes_spec [5, 6] 4).2 (by decide)).1,
    ((padBytes_spec [5, 6] 4).2 (by decide)).2.2⟩

/-- C7: ReadSHSize returns 64 bytes per section, fails with the
empty-header error exactly for zero sections, and returns 192 for three
sections. -/
theorem readSHSize_spec (sections : List PESection) :
    (sections.length = 0 → ReadSHSize sections = Outcome.err GoErr.emptyHeader) ∧
      (sections.length ≠ 0 → ReadSHSize sections = Outcome.ok (sections.length * 64)) ∧
      ReadSHSize [⟨0, 0, 0⟩, ⟨0, 0, 0⟩, ⟨0, 0, 0⟩] = Outcome.ok 192 := by
  refine ⟨?_, ?_, by decide⟩
  · intro h
    unfold ReadSHSize
    rw [if_pos (by rw [h]; rfl)]
  · intro h
    unfold ReadSHSize
    rw [if_neg ?_]
    · rfl
    · unfold SH32EntrySize
      omega

/-- Witness for C7: zero sections fail, one section gives 64 bytes. -/
theorem readSHSize_spec_witness :
    ReadSHSize [] = Outcome.err GoErr.emptyHeader ∧
      ReadSHSize [⟨1, 2, 3⟩] = Outcome.ok 64 :=
  ⟨(readSHSize_spec []).1 (by decide),
    ((readSHSize_spec [⟨1, 2, 3⟩]).2.1) (by decide)⟩

set_option maxRecDepth 100000

/-- When the signature search yields coff and the buffer is long enough,
ReadDDBytes returns the 128 bytes at coff + 4 + 20 + OH64ByteSize. -/
theorem readDDBytes_ok (image : List Nat) (coff : Nat)
    (hcoff : ReadCOFFHeaderOffset image = Outcome.ok coff)
    (hlen : coff + COFFStartBytesLen + COFFHeaderSize + OH64ByteSize + DataDirSize ≤
      image.length) :
    ReadDDBytes image = Outcome.ok
      ((image.drop (coff + COFFStartBytesLen + COFFHeaderSize + OH64ByteSize)).take
        DataDirSize) := by
  unfold ReadDDBytes
  simp only [hcoff]
  rw [if_pos hlen]

/-- C4 counterexample: the fixed optional-header width used by the
resolver is 110, not 96. -/
theorem oh64_ne_96 : OH64ByteSize = 110 ∧ OH64ByteSize ≠ 96 := by decide

/-- C4 (amended): the OptionalHeaderFixedSize constant equals 110 bytes
(240 total minus the 2-byte magic and the 128-byte data directory), so
ReadDDBytes returns the 128-byte range starting at coff + 4 + 20 + 110. -/
theorem oh64_and_readDDBytes (image : List Nat) (coff : Nat)
    (hcoff : ReadCOFFHeaderOffset image = Outcome.ok coff)
    (hlen : coff + COFFStartBytesLen + COFFHeaderSize + OH64ByteSize + DataDirSize ≤
      image.length) :
    OH64ByteSize = 110 ∧
      ReadDDBytes image = Outcome.ok ((image.drop (coff + 4 + 20 + 110)).take 128) :=
  ⟨rfl, readDDBytes_ok image coff hcoff hlen⟩

/-- Witness for C4: on the synthetic image the data directory starts at
byte 134 = 0 + 4 + 20 + 110. -/
theorem oh64_and_readDDBytes_witness :
    OH64ByteSize = 110 ∧
      ReadDDBytes sampleImage = Outcome.ok ((sampleImage.drop 134).take 128) :=
  oh64_and_readDDBytes sampleImage 0 (by decide) (by decide)

/-- C3: when the signature search yields coff, the buffer holds the full
data-directory table, and the 8-byte little-endian pair for the queried
entry sits at table index k and nowhere earlier, ReadDDEntryOffset
returns exactly coff + 4 + 20 + OH64ByteSize + k. -/
theorem readDDEntryOffset_roundtrip (image : List Nat) (coff k va sz : Nat)
    (hcoff : ReadCOFFHeaderOffset image = Outcome.ok coff)
    (hlen : coff + COFFStartBytesLen + COFFHeaderSize + OH64ByteSize + DataDirSize ≤
      image.length)
    (hk : k + DataDirEntrySize ≤ DataDirSize)
    (hat : (((image.drop (coff + COFFStartBytesLen + COFFHeaderSize + OH64ByteSize)).take
        DataDirSize).drop k).take DataDirEntrySize = putUint32LE va ++ putUint32LE sz)
    (hfirst : ∀ j, j < k →
      (((image.drop (coff + COFFStartBytesLen + COFFHeaderSize + OH64ByteSize)).take
          DataDirSize).drop j).take DataDirEntrySize ≠ putUint32LE va ++ putUint32LE sz) :
    ReadDDEntryOffset image va sz =
      Outcome.ok (coff + COFFStartBytesLen + COFFHeaderSize + OH64ByteSize + k) := by
  have hdd := readDDBytes_ok image coff hcoff hlen
  set dd := (image.drop (coff + COFFStartBytesLen + COFFHeaderSize + OH64ByteSize)).take
    DataDirSize with hdddef
  set entry := putUint32LE va ++ putUint32LE sz with hentrydef
  have hddlen : dd.length = DataDirSize := by
    rw [hdddef, List.length_take, List.length_drop]
    omega
  have hentrylen : entry.length = 8 := by
    rw [hentrydef]
    simp [putUint32LE]
  have hne : entry ≠ [] := by
    intro hcontra
    rw [hcontra] at hentrylen
    simp at hentrylen
  have hma : MatchAt dd entry k := by
    refine ⟨?_, ?_⟩
    · rw [hentrylen, hddlen]
      exact hk
    · rw [hentrylen]
      exact hat
  have hmin : ∀ j, j < k → ¬ MatchAt dd entry j := by
    intro j hj hmaj
    refine hfirst j hj ?_
    have := hmaj.2
    rw [hentrylen] at this
    exact this
  have hfind : FindBytes dd entry = Outcome.ok k :=
    (findBytes_found_iff dd entry hne (by rw [hentrylen, hddlen]; unfold DataDirSize; omega)
      k).mpr ⟨hma, hmin⟩
  unfold ReadDDEntryOffset
  simp only [hdd, ← hentrydef, hfind, hcoff]

/-- Witness for C3: on the synthetic image the entry (0x2000, 0x40)
written at table index 40 is resolved to byte offset 174 = 4 + 20 +
110 + 40. -/
theorem readDDEntryOffset_roundtrip_witness :
    ReadDDEntryOffset sampleImage 0x2000 0x40 = Outcome.ok 174 :=
  readDDEntryOffset_roundtrip sampleImage 0 40 0x2000 0x40 (by decide) (by decide)
    (by decide) (by decide) (by decide)

/-- C2 (code bug): on an image whose data directory does not contain the
queried 8-byte pattern, ReadDDEntryOffset reaches log.Fatal and
terminates the process instead of returning the not-found error to its
caller. -/
theorem readDDEntryOffset_fatal :
    ReadDDEntryOffset sampleImage 1 1 = Outcome.fatal := by decide

/-- C8 counterexample: for the section (VA = 0xFFFFFF00, size = 0x200,
offset = 0) the claimed range [VA, VA + size) contains the query address
0xFFFFFF80, yet ReadSectionBytes returns the section-nil error, because
the Go comparison va < VA + size is computed in wrapping uint32
arithmetic (VA + size wraps to 0x100). -/
theorem readSectionBytes_claim_cex :
    ((0xFFFFFF00 : Nat) ≤ 0xFFFFFF80 ∧ (0xFFFFFF80 : Nat) < 0xFFFFFF00 + 0x200) ∧
      ReadSectionBytes [1, 2, 3] [⟨0xFFFFFF00, 0x200, 0⟩] 0xFFFFFF80 1 =
        Outcome.err GoErr.sectionNil := by
  decide

/-- C8 (amended): ReadSectionBytes picks the first section in declaration
order satisfying the uint32-wrapped containment check, namely
section.virtualAddress <= va and va < (section.virtualAddress +
section.size) mod 2^32, returns the requested bytes at the wrapped file
offset (va - section.virtualAddress + section.fileOffset) mod 2^32, and
fails with the section-nil error independently of the image bytes when
no section passes the wrapped check. -/
theorem readSectionBytes_wrapped (fileBytes : List Nat) (sections : List PESection)
    (va sz : Nat) :
    ((∀ t ∈ sections,
        ¬ (t.virtualAddress ≤ va ∧ va < (t.virtualAddress + t.size) % U32)) →
        ∀ otherBytes : List Nat,
          ReadSectionBytes otherBytes sections va sz = Outcome.err GoErr.sectionNil) ∧
      (∀ pre s suf, sections = pre ++ s :: suf →
        (∀ t ∈ pre,
          ¬ (t.virtualAddress ≤ va ∧ va < (t.virtualAddress + t.size) % U32)) →
        s.virtualAddress ≤ va → va < (s.virtualAddress + s.size) % U32 →
        (va - s.virtualAddress + s.offset) % U32 + sz ≤ fileBytes.length →
        (va - s.virtualAddress + s.offset) % U32 + sz < U32 →
        ReadSectionBytes fileBytes sections va sz =
          Outcome.ok
            ((fileBytes.drop ((va - s.virtualAddress + s.offset) % U32)).take sz)) := by
  have hcontains : ∀ t : PESection, (sectionContains t va = true ↔
      (t.virtualAddress ≤ va ∧ va < (t.virtualAddress + t.size) % U32)) := by
    intro t
    unfold sectionContains
    simp
  constructor
  · intro hnone otherBytes
    unfold ReadSectionBytes
    have hfind : sections.find? (fun s => sectionContains s va) = none := by
      rw [List.find?_eq_none]
      intro t ht hc
      exact hnone t ht ((hcontains t).mp hc)
    rw [hfind]
  · rintro pre s suf rfl hpre hs1 hs2 hbound hover
    have hprenone : pre.find? (fun t => sectionContains t va) = none := by
      rw [List.find?_eq_none]
      intro t ht hc
      exact hpre t ht ((hcontains t).mp hc)
    have hfinds : (pre ++ s :: suf).find? (fun t => sectionContains t va) = some s := by
      rw [List.find?_append, hprenone]
      simp only [Option.none_or]
      exact List.find?_cons_of_pos suf ((hcontains s).mpr ⟨hs1, hs2⟩)
    unfold ReadSectionBytes
    simp only [hfinds]
    have hhi : ((va - s.virtualAddress + s.offset) % U32 + sz) % U32 =
        (va - s.virtualAddress + s.offset) % U32 + sz := Nat.mod_eq_of_lt hover
    rw [hhi]
    rw [if_pos ⟨Nat.le_add_right _ _, hbound⟩]
    have harith : (va - s.virtualAddress + s.offset) % U32 + sz -
        (va - s.virtualAddress + s.offset) % U32 = sz := by omega
    rw [harith]

/-- Witness for C8: a one-section table resolves an in-range query to the
translated file offset, and a query outside every section fails without
touching the image. -/
theorem readSectionBytes_wrapped_witness :
    ReadSectionBytes [10, 11, 12, 13, 14, 15] [⟨100, 4, 2⟩] 101 3 =
        Outcome.ok [13, 14, 15] ∧
      ReadSectionBytes [] [⟨100, 4, 2⟩] 99 3 = Outcome.err GoErr.sectionNil :=
  ⟨(readSectionBytes_wrapped [10, 11, 12, 13, 14, 15] [⟨100, 4, 2⟩] 101 3).2
      [] ⟨100, 4, 2⟩ [] rfl (by simp) (by decide) (by decide) (by decide) (by decide),
    (readSectionBytes_wrapped [] [⟨100, 4, 2⟩] 99 3).1 (by decide) []⟩

/-- binReadBytes on a reader holding fewer bytes than requested consumes
everything that remains and reports eof or unexpectedEOF. -/
theorem binReadBytes_truncated (r : ByteReader) (w : Nat) (hpos : r.pos ≤ r.data.length)
    (h : r.data.length - r.pos < w) :
    binReadBytes r w = (Outcome.err (truncErr r), ⟨r.data, r.data.length⟩) := by
  obtain ⟨d, p⟩ := r
  unfold binReadBytes truncErr
  dsimp only at *
  rw [if_neg (by omega)]
  by_cases h0 : d.length - p = 0
  · rw [if_pos h0, if_pos h0]
    have hp : p = d.length := by omega
    rw [hp]
  · rw [if_neg h0, if_neg h0]

/-- C9 (amended): each fixed-width record decoder, on a cursor holding
fewer bytes than the record width, fails (io.EOF when nothing remains,
io.ErrUnexpectedEOF after a partial read) and consumes all remaining
bytes, leaving the cursor at the end of the input. -/
theorem decoders_truncated (r : ByteReader) (hpos : r.pos ≤ r.data.length) :
    (r.data.length - r.pos < importByteSize →
        ReadImport r = (Outcome.err (truncErr r), ⟨r.data, r.data.length⟩)) ∧
      (r.data.length - r.pos < thunkByteSize →
        ReadThunk r = (Outcome.err (truncErr r), ⟨r.data, r.data.length⟩)) ∧
      (r.data.length - r.pos < dataDirByteSize →
        ReadDataDir r = (Outcome.err (truncErr r), ⟨r.data, r.data.length⟩)) ∧
      (r.data.length - r.pos < encBlockByteSize →
        ReadEncBlock r = (Outcome.err (truncErr r), ⟨r.data, r.data.length⟩)) := by
  refine ⟨fun h => ?_, fun h => ?_, fun h => ?_, fun h => ?_⟩
  · unfold ReadImport
    rw [binReadBytes_truncated r importByteSize hpos h]
  · unfold ReadThunk
    rw [binReadBytes_truncated r thunkByteSize hpos h]
  · unfold ReadDataDir
    rw [binReadBytes_truncated r dataDirByteSize hpos h]
  · unfold ReadEncBlock
    rw [binReadBytes_truncated r encBlockByteSize hpos h]

/-- C9 counterexample: ReadThunk on a one-byte reader fails as claimed
but consumes the byte: the cursor moves from position 0 to position 1,
so the claim that the cursor is left unchanged is false. -/
theorem decoders_truncated_cex :
    ReadThunk ⟨[7], 0⟩ = (Outcome.err GoErr.unexpectedEOF, ⟨[7], 1⟩) ∧
      (ReadThunk ⟨[7], 0⟩).2 ≠ (⟨[7], 0⟩ : ByteReader) := by
  decide

/-- Witness for C9: a three-byte reader is too short for the 20-byte
Import record; the decode fails and the cursor ends at position 3. -/
theorem decoders_truncated_witness :
    ReadImport ⟨[1, 2, 3], 0⟩ = (Outcome.err GoErr.unexpectedEOF, ⟨[1, 2, 3], 3⟩) :=
  (decoders_truncated ⟨[1, 2, 3], 0⟩ (by decide)).1 (by decide)

end readwrite
